import Mathlib

/-!
Verification of `Multilabel_classification/feature_network.py`.

The Python source is shallowly embedded: pure tensor computations become
Lean functions on `List ℝ` / `Matrix`, the training loop's mutable
accumulators become explicit fold state, and Python `int` arithmetic
becomes `Nat` arithmetic.  External library calls (`nn.BCELoss`,
`torch.optim.lr_scheduler.StepLR`) are embedded from their documented
semantics; repository code not present in the sources
(`compute_f1_score`, the Adam parameter update) is kept abstract as a
function parameter, following the spec's description of it as a
pluggable contract.
-/

namespace FeatureNet

/-! ## Partitioner (FeatureNetwork.__init__, lines 73-92)

`self.n_train = int(len(inputs) * 0.90)`; `indices = list(range(len(inputs)))`
with the shuffle commented out; the train sampler receives
`indices[:self.n_train]` and the valid sampler `indices[self.n_train:]`. -/

/-- `int(len(inputs) * 0.90)`: multiplying a `Nat` by 0.90 and truncating
is `9 * N / 10` in exact arithmetic. -/
def n_train (N : ℕ) : ℕ := 9 * N / 10

/-- `indices = list(range(len(inputs)))` (the shuffle on line 76 is
commented out). -/
def indices (N : ℕ) : List ℕ := List.range N

/-- `indices[:self.n_train]`, the index set handed to the training
sampler. -/
def train_partition (N : ℕ) : List ℕ := (indices N).take (n_train N)

/-- `indices[self.n_train:]`, the index set handed to the validation
sampler. -/
def valid_partition (N : ℕ) : List ℕ := (indices N).drop (n_train N)

lemma n_train_le (N : ℕ) : n_train N ≤ N := by
  unfold n_train; omega

lemma length_train_partition (N : ℕ) :
    (train_partition N).length = n_train N := by
  simp [train_partition, indices, n_train]; omega

lemma length_valid_partition (N : ℕ) :
    (valid_partition N).length = N - n_train N := by
  simp [valid_partition, indices]

/-- Claim C1: for every dataset size N, the training partition has
exactly `floor(0.9*N)` indices, the two partitions' lengths add up to N,
the training partition is exactly the first `floor(0.9*N)` indices
`0, 1, ..., floor(0.9*N)-1` in original order, the two index lists are
disjoint, and concatenated they are exactly the full index range
`0..N-1`. -/
theorem partitioner_invariant (N : ℕ) :
    (train_partition N).length + (valid_partition N).length = N ∧
    (train_partition N).length = n_train N ∧
    (n_train N : ℝ) = ⌊(0.9 : ℝ) * N⌋₊ ∧
    train_partition N = List.range (n_train N) ∧
    List.Disjoint (train_partition N) (valid_partition N) ∧
    train_partition N ++ valid_partition N = indices N := by
  refine ⟨?_, length_train_partition N, ?_, ?_, ?_, ?_⟩
  · rw [length_train_partition, length_valid_partition]
    have := n_train_le N
    omega
  · have h9 : (0.9 : ℝ) * N = (9 * N : ℕ) / (10 : ℕ) := by
      push_cast; ring
    rw [h9, Nat.floor_div_nat, Nat.floor_natCast]
    norm_cast
  · rw [train_partition, indices, List.take_range,
      Nat.min_eq_left (n_train_le N)]
  · exact List.disjoint_take_drop (List.nodup_range N) le_rfl
  · exact List.take_append_drop _ _

/-- Witness for C1 at N = 10. -/
theorem partitioner_invariant_witness :
    (train_partition 10).length + (valid_partition 10).length = 10 ∧
    (train_partition 10).length = n_train 10 ∧
    (n_train 10 : ℝ) = ⌊(0.9 : ℝ) * (10 : ℕ)⌋₊ ∧
    train_partition 10 = List.range (n_train 10) ∧
    List.Disjoint (train_partition 10) (valid_partition 10) ∧
    train_partition 10 ++ valid_partition 10 = indices 10 :=
  partitioner_invariant 10

/-! ## DataLoader batching

`DataLoader(..., batch_size=64, sampler=...)` draws the sampler's index
sequence and cuts it into consecutive batches of 64, the last one
possibly shorter.  `chunks64` performs that cut on an already-ordered
list of examples. -/

/-- Cut a list into consecutive chunks of 64 elements, the last chunk
possibly shorter (the batching performed by a `DataLoader` with
`batch_size=64` on the sampler's index sequence). -/
def chunks64 : List α → List (List α)
  | [] => []
  | x :: xs => (x :: xs).take 64 :: chunks64 ((x :: xs).drop 64)
termination_by l => l.length
decreasing_by simp; omega

lemma chunks64_flatten : ∀ l : List α, (chunks64 l).flatten = l
  | [] => by simp [chunks64]
  | x :: xs => by
    rw [chunks64, List.flatten_cons, chunks64_flatten ((x :: xs).drop 64),
      List.take_append_drop]
termination_by l => l.length
decreasing_by simp; omega

lemma chunks64_length_le : ∀ l : List α, ∀ b ∈ chunks64 l, b.length ≤ 64
  | [] => by simp [chunks64]
  | x :: xs => by
    intro b hb
    rw [chunks64] at hb
    rcases List.mem_cons.mp hb with h1 | h1
    · subst h1; simp
    · exact chunks64_length_le ((x :: xs).drop 64) b h1
termination_by l => l.length
decreasing_by simp; omega

lemma chunks64_ne_nil {l : List α} (h : l ≠ []) : chunks64 l ≠ [] := by
  cases l with
  | nil => exact absurd rfl h
  | cons x xs => rw [chunks64]; simp

lemma chunks64_sum_length (l : List α) :
    ((chunks64 l).map List.length).sum = l.length := by
  rw [← List.length_flatten, chunks64_flatten]

/-- Claim C10: for any dataset size N ≥ 1 the validation partition is
non-empty, because `n_train = int(N * 0.90)` is strictly below N; hence
for any ordering d of the validation examples the example count divided
by in `valid` is positive and the list of per-batch F1 scores averaged
by `np.mean` has positive length. -/
theorem valid_partition_nonempty (N : ℕ) (d : List ℕ)
    (hN : 1 ≤ N) (hd : d.length = (valid_partition N).length) :
    n_train N < N ∧
    0 < (valid_partition N).length ∧
    0 < d.length ∧
    0 < (chunks64 d).length := by
  have h1 : n_train N < N := by unfold n_train; omega
  have h2 : 0 < (valid_partition N).length := by
    rw [length_valid_partition]; omega
  refine ⟨h1, h2, by omega, ?_⟩
  have hne : d ≠ [] := by
    intro h; rw [h] at hd; simp at hd; omega
  have := chunks64_ne_nil hne
  exact List.length_pos.mpr this

/-- Witness for C10 at N = 10: the validation partition is the single
index 9, and a one-example ordering of it yields one batch. -/
theorem valid_partition_nonempty_witness :
    1 ≤ 10 ∧ [(9 : ℕ)].length = (valid_partition 10).length ∧
    (n_train 10 < 10 ∧
     0 < (valid_partition 10).length ∧
     0 < ([(9 : ℕ)]).length ∧
     0 < (chunks64 [(9 : ℕ)]).length) :=
  ⟨by decide, by decide,
   valid_partition_nonempty 10 [9] (by decide) (by decide)⟩

/-! ## FeatureMLP (lines 10-49)

Weights are rectangular real matrices represented as lists of rows; a
linear layer is `W x + b` row by row.  The module state is the flag
`only_feature_extraction` together with the six learnable tensors of the
three `nn.Linear` layers. -/

/-- Dot product of two equal-length real vectors. -/
def dot (u v : List ℝ) : ℝ := (List.zipWith (· * ·) u v).sum

/-- One `nn.Linear` layer: row-wise dot products plus the bias. -/
def linear (w : List (List ℝ)) (b : List ℝ) (x : List ℝ) : List ℝ :=
  List.zipWith (fun row bi => dot row x + bi) w b

/-- Elementwise `F.relu`. -/
def reluVec (x : List ℝ) : List ℝ := x.map (fun a => max a 0)

/-- `torch.sigmoid` on one coordinate. -/
noncomputable def sigmoid (z : ℝ) : ℝ := 1 / (1 + Real.exp (-z))

/-- Elementwise `torch.sigmoid`. -/
noncomputable def sigmoidVec (x : List ℝ) : List ℝ := x.map sigmoid

/-- State of a `FeatureMLP` module: the mode flag and the learnable
weight and bias tensors of `fc1`, `fc2`, `fc3`. -/
structure FeatureMLP where
  only_feature_extraction : Bool
  fc1_weight : List (List ℝ)
  fc1_bias : List ℝ
  fc2_weight : List (List ℝ)
  fc2_bias : List ℝ
  fc3_weight : List (List ℝ)
  fc3_bias : List ℝ

/-- `FeatureMLP.forward` (lines 44-49): relu(fc1 x), relu(fc2 -),
and, only when `only_feature_extraction` is false, sigmoid(fc3 -).
A pure function of the module state and the input. -/
noncomputable def forward (m : FeatureMLP) (x : List ℝ) : List ℝ :=
  let x1 := reluVec (linear m.fc1_weight m.fc1_bias x)
  let x2 := reluVec (linear m.fc2_weight m.fc2_bias x1)
  if m.only_feature_extraction then x2
  else sigmoidVec (linear m.fc3_weight m.fc3_bias x2)

/-- The post-layer-2 hidden representation relu(fc2(relu(fc1 x))),
shared by both modes of `forward`. -/
noncomputable def hiddenRepr (m : FeatureMLP) (x : List ℝ) : List ℝ :=
  reluVec (linear m.fc2_weight m.fc2_bias
    (reluVec (linear m.fc1_weight m.fc1_bias x)))

/-- Setting the module's mode flag. -/
def set_only_feature_extraction (m : FeatureMLP) (b : Bool) : FeatureMLP :=
  { m with only_feature_extraction := b }

/-- Claim C5: with `only_feature_extraction = true`, `forward` returns
exactly the post-layer-2 hidden representation (no layer 3, no sigmoid),
and that value is precisely the intermediate state that the
`only_feature_extraction = false` mode feeds into layer 3: the two modes
share identical first-two-layer computations. -/
theorem forward_mode_switch (m : FeatureMLP) (x : List ℝ) :
    forward (set_only_feature_extraction m true) x = hiddenRepr m x ∧
    forward (set_only_feature_extraction m false) x =
      sigmoidVec (linear m.fc3_weight m.fc3_bias
        (forward (set_only_feature_extraction m true) x)) := by
  constructor <;>
    simp [forward, hiddenRepr, set_only_feature_extraction]

/-- Witness for C5 at a concrete module and input. -/
theorem forward_mode_switch_witness :
    forward (set_only_feature_extraction
      ⟨false, [[1]], [0], [[1]], [0], [[1]], [0]⟩ true) [1] =
      hiddenRepr ⟨false, [[1]], [0], [[1]], [0], [[1]], [0]⟩ [1] ∧
    forward (set_only_feature_extraction
      ⟨false, [[1]], [0], [[1]], [0], [[1]], [0]⟩ false) [1] =
      sigmoidVec (linear [[1]] [0]
        (forward (set_only_feature_extraction
          ⟨false, [[1]], [0], [[1]], [0], [[1]], [0]⟩ true) [1])) :=
  forward_mode_switch ⟨false, [[1]], [0], [[1]], [0], [[1]], [0]⟩ [1]

/-- Claim C6: toggling `only_feature_extraction` changes only the output
contract: all six learnable tensors of the three linear layers are
unchanged, and `forward` in either mode is a pure read of the original
parameters — its output in each mode is determined by the unmodified
weights (in this embedding `forward` is a function of the module state
and the input, so it never writes the parameters). -/
theorem mode_flag_frame (m : FeatureMLP) (b : Bool) :
    (set_only_feature_extraction m b).fc1_weight = m.fc1_weight ∧
    (set_only_feature_extraction m b).fc1_bias = m.fc1_bias ∧
    (set_only_feature_extraction m b).fc2_weight = m.fc2_weight ∧
    (set_only_feature_extraction m b).fc2_bias = m.fc2_bias ∧
    (set_only_feature_extraction m b).fc3_weight = m.fc3_weight ∧
    (set_only_feature_extraction m b).fc3_bias = m.fc3_bias ∧
    ∀ x : List ℝ, forward (set_only_feature_extraction m b) x =
      if b then hiddenRepr m x
      else sigmoidVec (linear m.fc3_weight m.fc3_bias (hiddenRepr m x)) := by
  refine ⟨rfl, rfl, rfl, rfl, rfl, rfl, fun x => ?_⟩
  cases b <;> simp [forward, hiddenRepr, set_only_feature_extraction]

/-- Witness for C6 at a concrete module and flag value. -/
theorem mode_flag_frame_witness :
    (set_only_feature_extraction
      ⟨false, [[1]], [0], [[1]], [0], [[1]], [0]⟩ true).fc1_weight
      = [[(1 : ℝ)]] ∧
    ∀ x : List ℝ, forward (set_only_feature_extraction
      ⟨false, [[1]], [0], [[1]], [0], [[1]], [0]⟩ true) x =
      if true then hiddenRepr ⟨false, [[1]], [0], [[1]], [0], [[1]], [0]⟩ x
      else sigmoidVec (linear [[1]] [0]
        (hiddenRepr ⟨false, [[1]], [0], [[1]], [0], [[1]], [0]⟩ x)) :=
  ⟨(mode_flag_frame ⟨false, [[1]], [0], [[1]], [0], [[1]], [0]⟩ true).1,
   (mode_flag_frame ⟨false, [[1]], [0], [[1]], [0], [[1]], [0]⟩ true).2.2.2.2.2.2⟩

/-! ## Loss Module (line 40: `nn.BCELoss(reduction='sum')`)

Per the PyTorch contract, `BCELoss` applies
`-(t*log(p) + (1-t)*log(1-p))` to every element of the two equal-shaped
matrices and, with `reduction='sum'`, adds everything up.  The embedding
traverses the list-of-rows representation; the claim theorems relate the
traversal to the indexed double sum of the spec. -/

/-- Per-element binary cross-entropy `-(t*log(p) + (1-t)*log(1-p))`. -/
noncomputable def bce (p t : ℝ) : ℝ :=
  -(t * Real.log p + (1 - t) * Real.log (1 - p))

/-- Binary cross-entropy of one row of predictions against one row of
targets, summed over the labels. -/
noncomputable def rowLoss (p t : List ℝ) : ℝ := (List.zipWith bce p t).sum

/-- `self.loss_fn(predictions, targets)`: per-element binary
cross-entropy summed over every row and every label. -/
noncomputable def loss_fn (preds targets : List (List ℝ)) : ℝ :=
  (List.zipWith rowLoss preds targets).sum

/-- The list-of-rows form of a `B × L` real matrix, row-major. -/
def matRows {B L : ℕ} (M : Matrix (Fin B) (Fin L) ℝ) : List (List ℝ) :=
  (List.finRange B).map (fun i => (List.finRange L).map (fun j => M i j))

lemma sum_map_finRange (n : ℕ) (f : Fin n → ℝ) :
    ((List.finRange n).map f).sum = ∑ i, f i :=
  (Fin.sum_univ_def f).symm

lemma loss_fn_matRows {B L : ℕ} (P T : Matrix (Fin B) (Fin L) ℝ) :
    loss_fn (matRows P) (matRows T) = ∑ i, ∑ j, bce (P i j) (T i j) := by
  unfold loss_fn matRows
  rw [List.zipWith_map (α := Fin B) (β := Fin B), List.zipWith_same,
    sum_map_finRange]
  refine Finset.sum_congr rfl (fun i _ => ?_)
  unfold rowLoss
  rw [List.zipWith_map (α := Fin L) (β := Fin L), List.zipWith_same,
    sum_map_finRange]

/-- Claim C2: on any batch of predictions P and targets T of shape
`B × L`, the Loss Module returns the sum, over all `B*L` elements, of
`-(t*log(p) + (1-t)*log(1-p))`: the reduction is a sum over both
examples and labels, never a mean. -/
theorem loss_fn_is_total_sum {B L : ℕ} (P T : Matrix (Fin B) (Fin L) ℝ) :
    loss_fn (matRows P) (matRows T) =
      ∑ i : Fin B, ∑ j : Fin L,
        -(T i j * Real.log (P i j) +
          (1 - T i j) * Real.log (1 - P i j)) := by
  rw [loss_fn_matRows]
  simp only [bce]

/-- Witness for C2 on a concrete 1 × 1 batch. -/
theorem loss_fn_is_total_sum_witness :
    loss_fn (matRows (B := 1) (L := 1) (fun _ _ => (1 : ℝ) / 2))
        (matRows (B := 1) (L := 1) (fun _ _ => (1 : ℝ))) =
      ∑ _i : Fin 1, ∑ _j : Fin 1,
        -((1 : ℝ) * Real.log ((1 : ℝ) / 2) +
          (1 - 1) * Real.log (1 - (1 : ℝ) / 2)) :=
  loss_fn_is_total_sum (fun _ _ => (1 : ℝ) / 2) (fun _ _ => 1)

/-- Claim C8: the Loss Module's output is unchanged when the rows of
both the prediction matrix and the target matrix are permuted by the
same permutation: the sum reduction is order-independent. -/
theorem loss_fn_perm_invariant {B L : ℕ}
    (P T : Matrix (Fin B) (Fin L) ℝ) (σ : Equiv.Perm (Fin B)) :
    loss_fn (matRows (fun i j => P (σ i) j)) (matRows (fun i j => T (σ i) j)) =
      loss_fn (matRows P) (matRows T) := by
  rw [loss_fn_matRows, loss_fn_matRows]
  exact Equiv.sum_comp σ (fun i => ∑ j, bce (P i j) (T i j))

/-- Witness for C8 on a concrete 2 × 1 batch with the swap
permutation. -/
theorem loss_fn_perm_invariant_witness :
    loss_fn
        (matRows (B := 2) (L := 1)
          (fun i j => ![![(1 : ℝ) / 2], ![(1 : ℝ) / 4]] (Equiv.swap 0 1 i) j))
        (matRows (fun i j => ![![(1 : ℝ)], ![(0 : ℝ)]] (Equiv.swap 0 1 i) j)) =
      loss_fn (matRows ![![(1 : ℝ) / 2], ![(1 : ℝ) / 4]])
        (matRows ![![(1 : ℝ)], ![(0 : ℝ)]]) :=
  loss_fn_perm_invariant ![![(1 : ℝ) / 2], ![(1 : ℝ) / 4]]
    ![![(1 : ℝ)], ![(0 : ℝ)]] (Equiv.swap 0 1)

/-! ## Batch evaluation helpers shared by train / valid / test

An example is an (input, target) pair; a batch is a list of examples.
`compute_f1_score` lives in `auxiliary_functions.py`, which is not among
the sources.  Modelled from the spec: the spec describes it as a
pluggable contract taking two equal-shaped binary matrices and returning
one scalar, so every definition below is parametric in an arbitrary
function f1 of that shape. -/

/-- An (input features, target labels) pair. -/
abbrev Example := List ℝ × List ℝ

/-- A mini-batch of examples. -/
abbrev Batch := List Example

/-- `output.round().int()` applied to the model's output on one input:
the binarized prediction row. -/
noncomputable def predictRow (m : FeatureMLP) (e : Example) : List ℤ :=
  (forward m e.1).map (fun x => round x)

/-- `self.model.loss_fn(output, targets)` on one batch. -/
noncomputable def batchLoss (m : FeatureMLP) (b : Batch) : ℝ :=
  loss_fn (b.map (fun e => forward m e.1)) (b.map (fun e => e.2))

/-- The binarized predictions of one batch. -/
noncomputable def batchPreds (m : FeatureMLP) (b : Batch) : List (List ℤ) :=
  b.map (predictRow m)

/-- `compute_f1_score(targets, output_in_0_1)` on one batch. -/
noncomputable def batchF1 (f1 : List (List ℝ) → List (List ℤ) → ℝ)
    (m : FeatureMLP) (b : Batch) : ℝ :=
  f1 (b.map (fun e => e.2)) (batchPreds m b)

/-- Accumulator shape of the evaluation loops: a running loss, a running
example count, and a list collected batch by batch. -/
lemma foldl_acc3 {γ : Type} (g : Batch → ℝ) (h : Batch → γ) :
    ∀ (bs : List Batch) (l0 : ℝ) (t0 : ℕ) (c0 : List γ),
    bs.foldl
        (fun acc b => (acc.1 + g b, acc.2.1 + b.length, acc.2.2 ++ [h b]))
        (l0, t0, c0) =
      (l0 + (bs.map g).sum, t0 + (bs.map List.length).sum, c0 ++ bs.map h)
  | [], l0, t0, c0 => by simp
  | b :: bs, l0, t0, c0 => by
    rw [List.foldl_cons, foldl_acc3 g h bs]
    simp [add_assoc]

/-! ## FeatureNetwork.valid (lines 125-156) -/

/-- `FeatureNetwork.valid`: iterate over the validation loader's batches
(`chunks64 d`, where d is the sampler's ordering of the validation
examples), accumulating the summed loss, the example count and the list
of per-batch F1 scores; return
`(loss / t_size, np.mean(mean_f1))`. -/
noncomputable def valid (f1 : List (List ℝ) → List (List ℤ) → ℝ)
    (m : FeatureMLP) (d : List Example) : ℝ × ℝ :=
  let acc := (chunks64 d).foldl
    (fun acc b =>
      (acc.1 + batchLoss m b, acc.2.1 + b.length, acc.2.2 ++ [batchF1 f1 m b]))
    ((0 : ℝ), (0 : ℕ), ([] : List ℝ))
  (acc.1 / (acc.2.1 : ℝ), acc.2.2.sum / (acc.2.2.length : ℝ))

/-- Claim C3: `valid` returns the pair (per-example average loss over
the validation examples, mean of the per-batch F1 scores), where F1 is
computed separately on each loader batch — each of size at most 64 — and
the batch scores are then averaged, rather than one F1 over the full
validation set. -/
theorem valid_returns_batch_mean_f1
    (f1 : List (List ℝ) → List (List ℤ) → ℝ)
    (m : FeatureMLP) (d : List Example) :
    valid f1 m d =
      (((chunks64 d).map (batchLoss m)).sum / (d.length : ℝ),
       ((chunks64 d).map (batchF1 f1 m)).sum / ((chunks64 d).length : ℝ)) ∧
    ∀ b ∈ chunks64 d, b.length ≤ 64 := by
  refine ⟨?_, chunks64_length_le d⟩
  unfold valid
  rw [foldl_acc3, chunks64_sum_length]
  simp

/-- Witness for C3 on a concrete one-example validation set. -/
theorem valid_returns_batch_mean_f1_witness :
    valid (fun _ _ => 0) ⟨false, [], [], [], [], [], []⟩ [([1], [1])] =
      (((chunks64 [(([1], [1]) : Example)]).map
          (batchLoss ⟨false, [], [], [], [], [], []⟩)).sum /
        (([(([1], [1]) : Example)]).length : ℝ),
       ((chunks64 [(([1], [1]) : Example)]).map
          (batchF1 (fun _ _ => 0) ⟨false, [], [], [], [], [], []⟩)).sum /
        ((chunks64 [(([1], [1]) : Example)]).length : ℝ)) ∧
    ∀ b ∈ chunks64 [(([1], [1]) : Example)], b.length ≤ 64 :=
  valid_returns_batch_mean_f1 (fun _ _ => 0)
    ⟨false, [], [], [], [], [], []⟩ [([1], [1])]

/-! ## FeatureNetwork.test (lines 158-188) -/

/-- `FeatureNetwork.test`: iterate over the test loader's batches,
accumulating the summed loss, the example count and the list of
binarized per-batch outputs; after the loop divide the loss by the
example count, concatenate the outputs (`torch.cat`), and compute F1
once on the concatenation against the full test label matrix. -/
noncomputable def test (f1 : List (List ℝ) → List (List ℤ) → ℝ)
    (m : FeatureMLP) (d : List Example)
    (test_labels : List (List ℝ)) : ℝ × ℝ :=
  let acc := (chunks64 d).foldl
    (fun acc b =>
      (acc.1 + batchLoss m b, acc.2.1 + b.length, acc.2.2 ++ [batchPreds m b]))
    ((0 : ℝ), (0 : ℕ), ([] : List (List (List ℤ))))
  (acc.1 / (acc.2.1 : ℝ), f1 test_labels acc.2.2.flatten)

/-- Claim C4: `test` binarizes each batch by rounding, concatenates the
binarized predictions of all test batches, and computes F1 exactly once
on the full concatenated prediction matrix — which equals the rounded
prediction of every test example in original order — against the full
test label matrix, returning that single F1 with the per-example average
test loss. -/
theorem test_single_f1_on_concatenation
    (f1 : List (List ℝ) → List (List ℤ) → ℝ) (m : FeatureMLP)
    (d : List Example) (test_labels : List (List ℝ)) :
    test f1 m d test_labels =
      (((chunks64 d).map (batchLoss m)).sum / (d.length : ℝ),
       f1 test_labels (d.map (predictRow m))) := by
  unfold test
  rw [foldl_acc3, chunks64_sum_length]
  have hcat : (((chunks64 d).map (batchPreds m)).flatten : List (List ℤ)) =
      d.map (predictRow m) := by
    unfold batchPreds
    rw [← List.map_flatten, chunks64_flatten]
  simp [hcat]

/-- Witness for C4 on a concrete one-example test set. -/
theorem test_single_f1_on_concatenation_witness :
    test (fun _ _ => 0) ⟨false, [], [], [], [], [], []⟩ [([1], [1])] [[1]] =
      (((chunks64 [(([1], [1]) : Example)]).map
          (batchLoss ⟨false, [], [], [], [], [], []⟩)).sum /
        (([(([1], [1]) : Example)]).length : ℝ),
       (fun (_ : List (List ℝ)) (_ : List (List ℤ)) => (0 : ℝ)) [[1]]
         (([(([1], [1]) : Example)]).map
           (predictRow ⟨false, [], [], [], [], [], []⟩))) :=
  test_single_f1_on_concatenation (fun _ _ => 0)
    ⟨false, [], [], [], [], [], []⟩ [([1], [1])] [[1]]

/-! ## FeatureNetwork.train (lines 94-123)

The loop body computes the batch loss on the current parameters and then
mutates them (`loss.backward(); self.model.optimizer.step()`).  The Adam
parameter update lives in the torch library; modelled from the spec: the
spec describes the optimizer only as a first/second-moment adaptive
gradient method, so the update is an abstract function from module state
and batch to module state, and the theorem holds for every such
update. -/

/-- `FeatureNetwork.train`: fold over the epoch's batches, threading the
module state through the optimizer update while accumulating
`t_loss += loss` (computed before the update, as in the loop body) and
`t_size += len(inputs)`; return the updated module and
`t_loss / t_size`. -/
noncomputable def trainEpoch (update : FeatureMLP → Batch → FeatureMLP)
    (m0 : FeatureMLP) (batches : List Batch) : FeatureMLP × ℝ :=
  let acc := batches.foldl
    (fun acc b => (update acc.1 b, acc.2.1 + batchLoss acc.1 b, acc.2.2 + b.length))
    (m0, (0 : ℝ), (0 : ℕ))
  (acc.1, acc.2.1 / (acc.2.2 : ℝ))

/-- The sequence of batch losses of one epoch, each computed on the
module state as updated by all the preceding batches. -/
noncomputable def epochBatchLosses (update : FeatureMLP → Batch → FeatureMLP) :
    FeatureMLP → List Batch → List ℝ
  | _, [] => []
  | m, b :: bs => batchLoss m b :: epochBatchLosses update (update m b) bs

lemma trainEpoch_foldl (update : FeatureMLP → Batch → FeatureMLP) :
    ∀ (bs : List Batch) (m : FeatureMLP) (l0 : ℝ) (t0 : ℕ),
    bs.foldl
        (fun acc b =>
          (update acc.1 b, acc.2.1 + batchLoss acc.1 b, acc.2.2 + b.length))
        (m, l0, t0) =
      (bs.foldl update m, l0 + (epochBatchLosses update m bs).sum,
       t0 + (bs.map List.length).sum)
  | [], m, l0, t0 => by simp [epochBatchLosses]
  | b :: bs, m, l0, t0 => by
    rw [List.foldl_cons, trainEpoch_foldl update bs]
    simp [epochBatchLosses, add_assoc]

/-- Claim C7: the training epoch returns the per-example average
training loss: the sum of the per-batch losses over all the epoch's
batches divided by the total number of training examples processed (the
example count, not the batch count). -/
theorem trainEpoch_returns_per_example_avg
    (update : FeatureMLP → Batch → FeatureMLP)
    (m0 : FeatureMLP) (batches : List Batch) :
    (trainEpoch update m0 batches).2 =
      (epochBatchLosses update m0 batches).sum /
        ((batches.map List.length).sum : ℝ) := by
  unfold trainEpoch
  rw [trainEpoch_foldl]
  simp

/-- Witness for C7 with the identity update on a concrete batch list. -/
theorem trainEpoch_returns_per_example_avg_witness :
    (trainEpoch (fun m _ => m) ⟨false, [], [], [], [], [], []⟩
        [[([1], [1])]]).2 =
      (epochBatchLosses (fun m _ => m) ⟨false, [], [], [], [], [], []⟩
          [[([1], [1])]]).sum /
        (([[(([1], [1]) : Example)]].map List.length).sum : ℝ) :=
  trainEpoch_returns_per_example_avg (fun m _ => m)
    ⟨false, [], [], [], [], [], []⟩ [[([1], [1])]]

/-! ## Learning-rate schedule and entry-point loop (lines 209-215)

`scheduler = torch.optim.lr_scheduler.StepLR(F_Net.model.optimizer,
step_size=25, gamma=0.1)`; each iteration of the entry-point loop runs
`F_Net.train(epoch)`, `F_Net.valid()` and then `scheduler.step()`.  Per
the StepLR contract, after k steps the optimizer's learning rate is
`base_lr * gamma ^ (k / 25)` with `base_lr = 1e-3` from the Adam
constructor (line 42). -/

/-- The optimizer's learning rate after a given number of scheduler
steps: `1e-3 * 0.1 ^ (last_epoch / 25)` (StepLR with step_size=25,
gamma=0.1 over Adam's lr=1e-3). -/
noncomputable def scheduler_lr (last_epoch : ℕ) : ℝ :=
  1e-3 * (0.1 : ℝ) ^ (last_epoch / 25)

/-- The entry-point loop: each epoch trains with the learning rate given
by the scheduler's current step count, then validates (pure, no effect
on the module or scheduler), then calls `scheduler.step()` exactly once,
incrementing the step count.  Returns the module state and the scheduler
step count after n epochs. -/
noncomputable def runEpochs (update : ℝ → FeatureMLP → Batch → FeatureMLP)
    (getBatches : ℕ → List Batch) (m0 : FeatureMLP) : ℕ → FeatureMLP × ℕ
  | 0 => (m0, 0)
  | n + 1 =>
    let prev := runEpochs update getBatches m0 n
    ((trainEpoch (update (scheduler_lr prev.2)) prev.1 (getBatches n)).1,
     prev.2 + 1)

/-- Claim C9: the scheduler is stepped exactly once per epoch by the
entry-point loop — after n epochs its step count is exactly n, not
touched inside train/valid (which take no scheduler state) — and the
schedule multiplies the step size by 0.1 every 25 epochs:
`lr(k + 25) = 0.1 * lr(k)` for every step count k, starting from 1e-3. -/
theorem scheduler_stepped_once_per_epoch
    (update : ℝ → FeatureMLP → Batch → FeatureMLP)
    (getBatches : ℕ → List Batch) (m0 : FeatureMLP) (n : ℕ) :
    (runEpochs update getBatches m0 n).2 = n ∧
    scheduler_lr 0 = 1e-3 ∧
    ∀ k : ℕ, scheduler_lr (k + 25) = 0.1 * scheduler_lr k := by
  refine ⟨?_, by simp [scheduler_lr], fun k => ?_⟩
  · induction n with
    | zero => rfl
    | succ n ih => simp [runEpochs, ih]
  · unfold scheduler_lr
    rw [Nat.add_div_right k (by norm_num), pow_succ]
    ring

/-- Witness for C9 after three epochs of the loop. -/
theorem scheduler_stepped_once_per_epoch_witness :
    (runEpochs (fun _ m _ => m) (fun _ => [])
        ⟨false, [], [], [], [], [], []⟩ 3).2 = 3 ∧
    scheduler_lr 0 = 1e-3 ∧
    ∀ k : ℕ, scheduler_lr (k + 25) = 0.1 * scheduler_lr k :=
  scheduler_stepped_once_per_epoch (fun _ m _ => m) (fun _ => [])
    ⟨false, [], [], [], [], [], []⟩ 3

end FeatureNet
